import Mathlib

/-!
Shallow embedding of the core logic of modedl/ytdownloader.

The repository has two Python scripts:

* `or.py` — a Streamlit app with
  - `download_youtube_video_for_streamlit` (stream selection among
    progressive streams and output-filename synthesis), and
  - `cleanup_old_files` (the retention sweep over the download directory).
* `app.py` — a Streamlit app with `process_youtube_streams`, which picks the
  largest progressive and the largest adaptive video-only stream and builds a
  list of per-stream detail dictionaries.

Conventions of the embedding:

* Python `datetime.datetime` values are modelled by the `DateTime` structure
  (Gregorian calendar fields, second precision).  Python compares `datetime`
  objects chronologically; the embedding compares their images under
  `DateTime.toSecs` (seconds since the Unix epoch computed with the standard
  civil-calendar algorithm), which realises the same total order on valid
  date-times.  Filesystem modification times (`os.path.getmtime` followed by
  `datetime.fromtimestamp`) are carried directly as epoch seconds.
* `datetime.strptime(s, "%Y%m%d%H%M%S")` is modelled by `parseTSList` for the
  14-digit fixed-width form (the only form the repository ever generates):
  four year digits, then two digits each for month, day, hour, minute and
  second, with the field ranges that `strptime` and the `datetime` constructor
  enforce (month 1-12, day within the month, hour 0-23, minute 0-59,
  second 0-59, year at least 1).  `datetime.strftime("%Y%m%d%H%M%S")` is
  modelled by `formatTS` (zero-padded fields; years 1000-9999 render as
  exactly four digits).
* Python's `str.split('_')` is modelled by `splitU` on character lists
  (separator-splitting that keeps empty chunks, never returning an empty
  list of chunks).
* pytubefix stream objects are modelled by `RawStream`, carrying exactly the
  attributes the repository reads for its control flow and its output records
  (`progressive` / adaptive flag, `type`, `resolution`, `filesize`, `url`).
  The remaining attributes that `app.py` copies verbatim into its output
  dictionaries (fps, codecs, mime type, itag) play no role in any claim and
  are not modelled.  `StreamQuery.order_by('resolution')` drops streams whose
  resolution attribute is `None` and sorts the rest by the integer formed by
  the digit characters of the label; `.desc()` reverses to descending order.
  This is modelled by `orderByResolutionDesc`.
* Directories are modelled as lists of regular-file entries (`FileEntry`):
  the sweep's `os.listdir` + `os.path.isfile` enumeration yields exactly the
  regular files, and `os.remove` failures are modelled by the per-file
  `deletable` flag (a file whose deletion raises stays in place and is not
  counted).
-/

set_option maxRecDepth 4000

/-- Calendar date-time with second precision, the shape of a Python
`datetime.datetime` value (year 1..9999). -/
structure DateTime where
  year : Nat
  month : Nat
  day : Nat
  hour : Nat
  minute : Nat
  second : Nat
deriving DecidableEq, Repr

/-- Numeric value of a decimal digit character. -/
def digitVal (c : Char) : Nat := c.toNat - 48

/-- Decimal digit character for a value below ten. -/
def digChar : Nat → Char
  | 0 => '0'
  | 1 => '1'
  | 2 => '2'
  | 3 => '3'
  | 4 => '4'
  | 5 => '5'
  | 6 => '6'
  | 7 => '7'
  | 8 => '8'
  | 9 => '9'
  | _ => '0'

/-- Value of a big-endian string of decimal digits. -/
def digitsVal (cs : List Char) : Nat := cs.foldl (fun a c => 10 * a + digitVal c) 0

/-- Fixed-width zero-padded big-endian decimal rendering, as produced by the
zero-padded strftime fields. -/
def padNat : Nat → Nat → List Char
  | 0, _ => []
  | w + 1, n => padNat w (n / 10) ++ [digChar (n % 10)]

/-- Gregorian leap-year test. -/
def isLeapYear (y : Nat) : Bool := (y % 4 == 0 && y % 100 != 0) || y % 400 == 0

/-- Number of days in a month of the Gregorian calendar. -/
def daysInMonth (y m : Nat) : Nat :=
  if m = 2 then (if isLeapYear y then 29 else 28)
  else if m = 4 ∨ m = 6 ∨ m = 9 ∨ m = 11 then 30 else 31

/-- Validity of a date-time, exactly the ranges that
`datetime.strptime(s, "%Y%m%d%H%M%S")` accepts on a 14-digit string: the
regex admits month 01-12, day 01-31, hour 00-23, minute 00-59, second 00-61,
and the `datetime` constructor then requires year at least 1, day within the
month and second at most 59. -/
def DateTime.validTS (d : DateTime) : Bool :=
  decide (1 ≤ d.year) && decide (d.year ≤ 9999) &&
  decide (1 ≤ d.month) && decide (d.month ≤ 12) &&
  decide (1 ≤ d.day) && decide (d.day ≤ daysInMonth d.year d.month) &&
  decide (d.hour ≤ 23) && decide (d.minute ≤ 59) && decide (d.second ≤ 59)

/-- Characters of `strftime("%Y%m%d%H%M%S")`. -/
def formatTSList (d : DateTime) : List Char :=
  padNat 4 d.year ++ (padNat 2 d.month ++ (padNat 2 d.day ++
    (padNat 2 d.hour ++ (padNat 2 d.minute ++ padNat 2 d.second))))

/-- String form of `strftime("%Y%m%d%H%M%S")`. -/
def formatTS (d : DateTime) : String := String.mk (formatTSList d)

/-- Model of `datetime.strptime(s, "%Y%m%d%H%M%S")` on its fixed-width form:
succeeds exactly on 14-digit strings whose fields are a valid date-time
(otherwise `strptime` or the `datetime` constructor raises `ValueError`). -/
def parseTSList (cs : List Char) : Option DateTime :=
  if cs.length = 14 && cs.all Char.isDigit then
    let d : DateTime :=
      { year := digitsVal (cs.take 4)
        month := digitsVal ((cs.drop 4).take 2)
        day := digitsVal ((cs.drop 6).take 2)
        hour := digitsVal ((cs.drop 8).take 2)
        minute := digitsVal ((cs.drop 10).take 2)
        second := digitsVal (cs.drop 12) }
    if d.validTS then some d else none
  else none

/-- Days from 1970-01-01 of a civil date (standard era-based algorithm). -/
def daysFromCivil (y m d : Int) : Int :=
  let ya : Int := if m ≤ 2 then y - 1 else y
  let era : Int := (if 0 ≤ ya then ya else ya - 399) / 400
  let yoe : Int := ya - era * 400
  let mp : Int := (m + 9) % 12
  let doy : Int := (153 * mp + 2) / 5 + d - 1
  let doe : Int := yoe * 365 + yoe / 4 - yoe / 100 + doy
  era * 146097 + doe - 719468

/-- Seconds since the Unix epoch of a date-time; on valid date-times this is
a strictly monotone image of the chronological order that Python uses to
compare `datetime` objects. -/
def DateTime.toSecs (d : DateTime) : Int :=
  86400 * daysFromCivil (Int.ofNat d.year) (Int.ofNat d.month) (Int.ofNat d.day)
    + 3600 * Int.ofNat d.hour + 60 * Int.ofNat d.minute + Int.ofNat d.second

/-- Model of Python's `str.split('_')` on character lists: split on the
underscore separator, keeping empty chunks. -/
def splitU : List Char → List (List Char)
  | [] => [[]]
  | c :: cs =>
    if c = '_' then [] :: splitU cs
    else
      match splitU cs with
      | p :: ps => (c :: p) :: ps
      | [] => [[c]]

/-- One regular file of the swept directory: its name, its filesystem
modification time in epoch seconds, and whether `os.remove` would succeed on
it (deletion failures such as permission errors are modelled per file). -/
structure FileEntry where
  name : String
  mtimeSecs : Int
  deletable : Bool
deriving DecidableEq, Repr

/-- The `file_timestamp` computed by `cleanup_old_files` (or.py lines 99-110)
for one file, in epoch seconds: split the name on underscores; with at least
four segments, `strptime` the second-to-last segment, falling back to the
modification time when that raises; with fewer than four segments nothing in
the `try` block raises, so `file_timestamp` remains `None`. -/
def fileTimestampSecs (f : FileEntry) : Option Int :=
  let parts := splitU f.name.data
  if 4 ≤ parts.length then
    match parseTSList (parts.getD (parts.length - 2) []) with
    | some dt => some dt.toSecs
    | none => some f.mtimeSecs
  else none

/-- Whether `cleanup_old_files` removes one file: a timestamp was derived, it
is strictly before the cutoff, and `os.remove` succeeds (or.py lines 112-118). -/
def removesFile (cutoff : Int) (f : FileEntry) : Bool :=
  match fileTimestampSecs f with
  | some t => decide (t < cutoff) && f.deletable
  | none => false

/-- The per-file loop of `cleanup_old_files` (or.py lines 96-118): each
removed file increments `cleaned_count` and leaves the directory; every other
file stays. -/
def sweepLoop (cutoff : Int) : List FileEntry → Nat × List FileEntry
  | [] => (0, [])
  | f :: fs =>
    let r := sweepLoop cutoff fs
    if removesFile cutoff f then (r.1 + 1, r.2) else (r.1, f :: r.2)

/-- Retention window of or.py (`CLEANUP_DELAY_MINUTES = 5`). -/
def CLEANUP_DELAY_MINUTES : Int := 5

/-- `cleanup_old_files` (or.py lines 83-124) over a directory of regular
files: cutoff is `now` minus the retention window in minutes; returns the
count of files actually removed together with the directory left behind.
The window is passed as a parameter; the repository fixes it to
`CLEANUP_DELAY_MINUTES`. -/
def cleanup_old_files (nowSecs windowMinutes : Int) (dir : List FileEntry) :
    Nat × List FileEntry :=
  sweepLoop (nowSecs - 60 * windowMinutes) dir

/-- The attributes of a pytubefix stream object that the repository reads.
`progressive` is the combined video+audio flag (`is_adaptive` is its
negation), `streamType` is the `type` attribute ("video" or "audio"),
`resolution` is the optional label such as "720p", `filesize` the optional
byte size, `url` the direct source URL. -/
structure RawStream where
  progressive : Bool
  streamType : String
  resolution : Option String
  filesize : Option Nat
  url : String
deriving DecidableEq, Repr

/-- Sort key of `order_by('resolution')`: the integer formed by the digit
characters of the resolution label (for example "720p" gives 720). -/
def resKey (s : RawStream) : Nat :=
  digitsVal ((s.resolution.getD "").data.filter Char.isDigit)

/-- Insertion step of the descending-resolution sort. -/
def insertDesc (x : RawStream) : List RawStream → List RawStream
  | [] => [x]
  | y :: ys => if resKey y < resKey x then x :: y :: ys else y :: insertDesc x ys

/-- Model of `order_by('resolution').desc()`: drop entries whose resolution
attribute is `None` (order_by keeps only streams where the attribute is
present), then sort by descending numeric resolution. -/
def orderByResolutionDesc (l : List RawStream) : List RawStream :=
  (l.filter (fun s => s.resolution.isSome)).foldr insertDesc []

/-- The `progressive_streams` query of both scripts:
`yt.streams.filter(progressive=True).order_by('resolution').desc()`. -/
def progressivePool (streams : List RawStream) : List RawStream :=
  orderByResolutionDesc (streams.filter (fun s => s.progressive))

/-- The `video_only_streams` query of app.py line 75:
`yt.streams.filter(type="video", adaptive=True).order_by('resolution').desc()`
(adaptive means not progressive). -/
def videoOnlyPool (streams : List RawStream) : List RawStream :=
  orderByResolutionDesc
    (streams.filter (fun s => s.streamType == "video" && !s.progressive))

/-- Stream selection of `download_youtube_video_for_streamlit` (or.py lines
35-49): scan the descending progressive pool for an exact resolution match;
otherwise take the first (highest) entry of the pool; raise `ValueError` when
the pool is empty. -/
def download_youtube_video_select (streams : List RawStream)
    (resolution : String) : Except String RawStream :=
  let pool := progressivePool streams
  match pool.find? (fun s => s.resolution == some resolution) with
  | some s => Except.ok s
  | none =>
    match pool.head? with
    | some s => Except.ok s
    | none =>
      Except.error "No progressive streams found for this video at any resolution."

/-- Rounding of a rational to two decimal places, the idealisation of
Python's `round(x, 2)` (float rounding noise aside). -/
def round2 (q : ℚ) : ℚ := (round (100 * q) : ℤ) / 100

/-- The `filesize_mb` expression of app.py lines 144, 155 and 169:
`round(s.filesize / (1024 * 1024), 2) if s.filesize else None`.  Python
truthiness makes both a missing size and a size of zero fall to `None`. -/
def filesize_mb : Option Nat → Option ℚ
  | none => none
  | some 0 => none
  | some b => some (round2 ((b : ℚ) / (1024 * 1024)))

/-- Modelled from the spec: `approxSizeMB` is "derived from exact or
approximate byte size (÷ 1,048,576, rounded to 2 decimals)" and absent only
when the byte size is unknown. -/
def spec_approxSizeMB (b : Option Nat) : Option ℚ :=
  b.map (fun n => round2 ((n : ℚ) / 1048576))

/-- One entry of the `full_stream_details` list that app.py lines 162-172
appends for each selected stream; the fields the claims read are modelled
(type label, resolution-or-"N/A", filesize_mb, source url); the verbatim
passthrough fields fps, codecs, mime type and itag are omitted. -/
structure StreamDetail where
  typeLabel : String
  resolution : Option String
  fsizeMB : Option ℚ
  url : String
deriving DecidableEq, Repr

/-- The detail record app.py builds for a selected stream:
`s.resolution if s.type == "video" else "N/A"` and the `filesize_mb`
expression, with the url copied verbatim. -/
def mkDetail (label : String) (s : RawStream) : StreamDetail :=
  { typeLabel := label
    resolution := if s.streamType == "video" then s.resolution else some "N/A"
    fsizeMB := filesize_mb s.filesize
    url := s.url }

/-- Label attached to the selected progressive stream (app.py line 70). -/
def progLabel : String := "progressive (video+audio)"

/-- Label attached to the selected video-only stream (app.py line 81). -/
def voLabel : String := "adaptive (video-only)"

/-- The `streams_to_download_info` list of app.py lines 61-83: at most the
first (largest) progressive stream followed by the first (largest) adaptive
video-only stream, each with its type label. -/
def streams_to_download_info (streams : List RawStream) :
    List (String × RawStream) :=
  (match (progressivePool streams).head? with
   | some s => [(progLabel, s)]
   | none => []) ++
  (match (videoOnlyPool streams).head? with
   | some s => [(voLabel, s)]
   | none => [])

/-- The `full_stream_details` output of `process_youtube_streams` (app.py
lines 89-172): one detail record per selected stream, appended in loop order
regardless of download success (the append sits outside the try/except). -/
def process_youtube_streams_details (streams : List RawStream) :
    List StreamDetail :=
  (streams_to_download_info streams).map (fun p => mkDetail p.1 p.2)

/-- Title sanitisation of or.py lines 53-54: keep alphanumerics, spaces, dots
and underscores; strip (only spaces can remain at the ends after the filter);
replace spaces with underscores; truncate to 50 characters. -/
def safe_title (title : String) : String :=
  let kept := title.data.filter (fun c => c.isAlphanum || c = ' ' || c = '.' || c = '_')
  let stripped :=
    ((kept.dropWhile (fun c => c = ' ')).reverse.dropWhile (fun c => c = ' ')).reverse
  String.mk ((stripped.map (fun c => if c = ' ' then '_' else c)).take 50)

/-- Output filename synthesis of or.py line 58:
`f"{safe_title}_{resolution}_{timestamp_str}_{unique_id}.mp4"`. -/
def file_name (title resolution : String) (now : DateTime)
    (unique_id : String) : String :=
  safe_title title ++ "_" ++ resolution ++ "_" ++ formatTS now ++ "_" ++
    unique_id ++ ".mp4"

/-! Helper lemmas about the retention sweep. -/

theorem sweepLoop_count (cutoff : Int) (l : List FileEntry) :
    (sweepLoop cutoff l).1 = (l.filter (removesFile cutoff)).length := by
  induction l with
  | nil => rfl
  | cons f fs ih =>
    cases h : removesFile cutoff f <;> simp [sweepLoop, List.filter_cons, h, ih]

theorem sweepLoop_rest (cutoff : Int) (l : List FileEntry) :
    (sweepLoop cutoff l).2 = l.filter (fun f => !removesFile cutoff f) := by
  induction l with
  | nil => rfl
  | cons f fs ih =>
    cases h : removesFile cutoff f <;> simp [sweepLoop, List.filter_cons, h, ih]

theorem length_filter_add_length_filter_not (p : FileEntry → Bool)
    (l : List FileEntry) :
    (l.filter p).length + (l.filter (fun f => !p f)).length = l.length := by
  induction l with
  | nil => rfl
  | cons f fs ih =>
    cases h : p f <;> simp [List.filter_cons, h] <;> omega

/-- C7: for every directory state, timestamp and retention window, the sweep
returns exactly the number of files actually removed: the count is the number
of entries whose derived timestamp is past the cutoff and whose deletion
succeeds, the surviving directory is exactly the rest, and count plus
survivors equals the original size (each successful deletion contributes
exactly 1, failed or skipped deletions contribute 0). -/
theorem cleanup_returns_removed_count (now window : Int) (dir : List FileEntry) :
    (cleanup_old_files now window dir).1
        = (dir.filter (removesFile (now - 60 * window))).length
  ∧ (cleanup_old_files now window dir).2
        = dir.filter (fun f => !removesFile (now - 60 * window) f)
  ∧ (cleanup_old_files now window dir).1
        + ((cleanup_old_files now window dir).2).length = dir.length := by
  refine ⟨sweepLoop_count _ _, sweepLoop_rest _ _, ?_⟩
  rw [cleanup_old_files, sweepLoop_count, sweepLoop_rest]
  exact length_filter_add_length_filter_not _ _

/-- C4: the sweep is idempotent — running it a second time immediately after
a first run with the same `now` and the same retention window removes 0
files. -/
theorem cleanup_idempotent (now window : Int) (dir : List FileEntry) :
    (cleanup_old_files now window (cleanup_old_files now window dir).2).1 = 0 := by
  rw [cleanup_old_files, cleanup_old_files, sweepLoop_rest, sweepLoop_count]
  induction dir with
  | nil => rfl
  | cons f fs ih =>
    cases h : removesFile (now - 60 * window) f <;>
      simp [List.filter_cons, h, ih]

/-- C1: a file whose name splits into fewer than four underscore segments is
never deleted by the sweep, whatever its modification time and however far in
the past the cutoff lies — the `try` block raises nothing in that case, so
`file_timestamp` stays `None` and the modification-time fallback documented
in the code's own comment is never taken.  This evaluates the code at the
claim's failing input `video.mp4`. -/
theorem short_name_file_never_removed (now window mtime : Int) :
    cleanup_old_files now window [⟨"video.mp4", mtime, true⟩]
      = (0, [⟨"video.mp4", mtime, true⟩]) := rfl

/-- The C5 file: `MyVideo_720p_20240101120000_ab12cd34.mp4` with an arbitrary
modification time (the name parses, so the modification time is never
consulted). -/
def c5File (mtime : Int) : FileEntry :=
  { name := "MyVideo_720p_20240101120000_ab12cd34.mp4"
    mtimeSecs := mtime
    deletable := true }

/-- C5: with a 5-minute window the sweep removes
`MyVideo_720p_20240101120000_ab12cd34.mp4` when `now` is 2024-01-01T12:06:00,
keeps it when `now` is 2024-01-01T12:04:00, and in general deletes it exactly
when the embedded creation time is strictly older than `now` minus the
retention window. -/
theorem sweep_five_minute_boundary (mtime : Int) :
    (cleanup_old_files (DateTime.toSecs ⟨2024, 1, 1, 12, 6, 0⟩)
        CLEANUP_DELAY_MINUTES [c5File mtime]).1 = 1
  ∧ (cleanup_old_files (DateTime.toSecs ⟨2024, 1, 1, 12, 4, 0⟩)
        CLEANUP_DELAY_MINUTES [c5File mtime]).1 = 0
  ∧ ∀ now : Int,
      (cleanup_old_files now CLEANUP_DELAY_MINUTES [c5File mtime]).1 =
        if DateTime.toSecs ⟨2024, 1, 1, 12, 0, 0⟩
            < now - 60 * CLEANUP_DELAY_MINUTES then 1 else 0 := by
  have hts : fileTimestampSecs (c5File mtime)
      = some (DateTime.toSecs ⟨2024, 1, 1, 12, 0, 0⟩) := rfl
  have key : ∀ now : Int,
      (cleanup_old_files now CLEANUP_DELAY_MINUTES [c5File mtime]).1 =
        if DateTime.toSecs ⟨2024, 1, 1, 12, 0, 0⟩
            < now - 60 * CLEANUP_DELAY_MINUTES then 1 else 0 := by
    intro now
    rw [cleanup_old_files]
    simp only [sweepLoop, removesFile, hts]
    by_cases h : DateTime.toSecs ⟨2024, 1, 1, 12, 0, 0⟩
        < now - 60 * CLEANUP_DELAY_MINUTES <;> simp [h, c5File]
  refine ⟨?_, ?_, key⟩
  · rw [key]; decide
  · rw [key]; decide

/-- C6: a file whose deletion fails never aborts the sweep — the count over a
directory containing it equals the count over the directory without it, the
failing file stays in place (contributing 0 to the count), and every other
file past the cutoff whose deletion succeeds is still removed. -/
theorem sweep_survives_deletion_failure (now window : Int)
    (pre post : List FileEntry) (bad : FileEntry)
    (hbad : bad.deletable = false) :
    (cleanup_old_files now window (pre ++ bad :: post)).1
        = (cleanup_old_files now window (pre ++ post)).1
  ∧ bad ∈ (cleanup_old_files now window (pre ++ bad :: post)).2
  ∧ ∀ f ∈ pre ++ post, removesFile (now - 60 * window) f = true →
      f ∉ (cleanup_old_files now window (pre ++ bad :: post)).2 := by
  have hb : removesFile (now - 60 * window) bad = false := by
    unfold removesFile
    cases h : fileTimestampSecs bad <;> simp [hbad]
  refine ⟨?_, ?_, ?_⟩
  · rw [cleanup_old_files, cleanup_old_files, sweepLoop_count, sweepLoop_count]
    simp [List.filter_append, List.filter_cons, hb]
  · rw [cleanup_old_files, sweepLoop_rest]
    simp [List.mem_filter, hb]
  · intro f hf hrem
    rw [cleanup_old_files, sweepLoop_rest]
    simp [List.mem_filter, hrem]

/-- Expired but undeletable file used to witness C6. -/
def c6Bad : FileEntry :=
  { name := "Locked_720p_20240101115000_deadbeef.mp4", mtimeSecs := 0, deletable := false }

/-- Expired deletable file used to witness C6. -/
def c6Good : FileEntry :=
  { name := "Stale_720p_20240101115500_cafebabe.mp4", mtimeSecs := 0, deletable := true }

/-- Witness for C6 at a concrete directory holding one undeletable expired
file and one deletable expired file. -/
theorem sweep_survives_deletion_failure_w :
    (cleanup_old_files (DateTime.toSecs ⟨2024, 1, 1, 12, 6, 0⟩) 5
        ([c6Good] ++ c6Bad :: [])).1
      = (cleanup_old_files (DateTime.toSecs ⟨2024, 1, 1, 12, 6, 0⟩) 5
        ([c6Good] ++ [])).1
  ∧ c6Bad ∈ (cleanup_old_files (DateTime.toSecs ⟨2024, 1, 1, 12, 6, 0⟩) 5
        ([c6Good] ++ c6Bad :: [])).2
  ∧ ∀ f ∈ [c6Good] ++ [],
      removesFile (DateTime.toSecs ⟨2024, 1, 1, 12, 6, 0⟩ - 60 * 5) f = true →
        f ∉ (cleanup_old_files (DateTime.toSecs ⟨2024, 1, 1, 12, 6, 0⟩) 5
          ([c6Good] ++ c6Bad :: [])).2 :=
  sweep_survives_deletion_failure (DateTime.toSecs ⟨2024, 1, 1, 12, 6, 0⟩) 5
    [c6Good] [] c6Bad rfl

/-! Helper lemmas about the descending-resolution ordering. -/

theorem mem_insertDesc (x a : RawStream) (l : List RawStream) :
    a ∈ insertDesc x l ↔ a = x ∨ a ∈ l := by
  induction l with
  | nil => simp [insertDesc]
  | cons y ys ih =>
    by_cases h : resKey y < resKey x <;> simp [insertDesc, h, ih] <;> tauto

theorem insertDesc_ne_nil (x : RawStream) (l : List RawStream) :
    insertDesc x l ≠ [] := by
  cases l with
  | nil => simp [insertDesc]
  | cons y ys => by_cases h : resKey y < resKey x <;> simp [insertDesc, h]

theorem mem_foldr_insertDesc (a : RawStream) (l : List RawStream) :
    a ∈ l.foldr insertDesc [] ↔ a ∈ l := by
  induction l with
  | nil => simp
  | cons y ys ih => simp [List.foldr, mem_insertDesc, ih]

theorem pairwise_insertDesc (x : RawStream) (l : List RawStream)
    (h : l.Pairwise (fun a b => resKey b ≤ resKey a)) :
    (insertDesc x l).Pairwise (fun a b => resKey b ≤ resKey a) := by
  induction l with
  | nil => simp [insertDesc]
  | cons y ys ih =>
    rcases List.pairwise_cons.mp h with ⟨hy, hys⟩
    by_cases hk : resKey y < resKey x
    · simp only [insertDesc, if_pos hk]
      refine List.pairwise_cons.mpr ⟨?_, h⟩
      intro b hb
      rcases List.mem_cons.mp hb with rfl | hb
      · omega
      · exact le_trans (hy b hb) (le_of_lt hk)
    · simp only [insertDesc, if_neg hk]
      refine List.pairwise_cons.mpr ⟨?_, ih hys⟩
      intro b hb
      rcases (mem_insertDesc x b ys).mp hb with rfl | hb
      · omega
      · exact hy b hb

theorem pairwise_foldr_insertDesc (l : List RawStream) :
    (l.foldr insertDesc []).Pairwise (fun a b => resKey b ≤ resKey a) := by
  induction l with
  | nil => simp
  | cons y ys ih => exact pairwise_insertDesc y _ ih

theorem mem_orderBy (y : RawStream) (l : List RawStream) :
    y ∈ orderByResolutionDesc l ↔ y ∈ l ∧ y.resolution.isSome = true := by
  unfold orderByResolutionDesc
  rw [mem_foldr_insertDesc, List.mem_filter]

theorem orderBy_head_max (l : List RawStream) (x : RawStream)
    (xs : List RawStream) (hx : orderByResolutionDesc l = x :: xs) :
    ∀ y ∈ l, y.resolution.isSome = true → resKey y ≤ resKey x := by
  intro y hy hsome
  have hmem : y ∈ orderByResolutionDesc l := (mem_orderBy y l).mpr ⟨hy, hsome⟩
  have hp : (orderByResolutionDesc l).Pairwise (fun a b => resKey b ≤ resKey a) :=
    pairwise_foldr_insertDesc _
  rw [hx] at hmem hp
  rcases List.mem_cons.mp hmem with rfl | hmem
  · exact le_refl _
  · exact (List.pairwise_cons.mp hp).1 y hmem

theorem mem_progressivePool (y : RawStream) (streams : List RawStream) :
    y ∈ progressivePool streams ↔
      y ∈ streams ∧ y.progressive = true ∧ y.resolution.isSome = true := by
  unfold progressivePool
  rw [mem_orderBy, List.mem_filter]
  tauto

theorem mem_videoOnlyPool (y : RawStream) (streams : List RawStream) :
    y ∈ videoOnlyPool streams ↔
      y ∈ streams ∧ y.progressive = false ∧ y.streamType = "video" ∧
        y.resolution.isSome = true := by
  unfold videoOnlyPool
  rw [mem_orderBy, List.mem_filter]
  simp [Bool.and_eq_true]
  tauto

theorem progressivePool_head_max (streams : List RawStream) (x : RawStream)
    (xs : List RawStream) (hx : progressivePool streams = x :: xs) :
    ∀ t ∈ streams, t.progressive = true → t.resolution.isSome = true →
      resKey t ≤ resKey x := by
  intro t ht hprog hsome
  exact orderBy_head_max _ x xs hx t (List.mem_filter.mpr ⟨ht, hprog⟩) hsome

theorem videoOnlyPool_head_max (streams : List RawStream) (x : RawStream)
    (xs : List RawStream) (hx : videoOnlyPool streams = x :: xs) :
    ∀ t ∈ streams, t.progressive = false → t.streamType = "video" →
      t.resolution.isSome = true → resKey t ≤ resKey x := by
  intro t ht hprog htype hsome
  refine orderBy_head_max _ x xs hx t (List.mem_filter.mpr ⟨ht, ?_⟩) hsome
  simp [hprog, htype]

/-- C2: selection restricts to combined (progressive) entries; an exact
resolution-label match among them is returned when one exists; otherwise the
highest-resolution combined entry is returned; and with no combined entry at
all selection fails with the no-progressive-stream error instead of producing
output.  The hypothesis is the resolver invariant that combined streams carry
a resolution label. -/
theorem selectStream_policy (streams : List RawStream) (resolution : String)
    (hres : ∀ s ∈ streams, s.progressive = true → s.resolution.isSome = true) :
    (∀ s, download_youtube_video_select streams resolution = Except.ok s →
        s ∈ streams ∧ s.progressive = true)
  ∧ ((∃ s ∈ streams, s.progressive = true ∧ s.resolution = some resolution) →
      ∃ s, download_youtube_video_select streams resolution = Except.ok s ∧
        s ∈ streams ∧ s.progressive = true ∧ s.resolution = some resolution)
  ∧ ((∀ s ∈ streams, s.progressive = true → s.resolution ≠ some resolution) →
      (∃ s ∈ streams, s.progressive = true) →
      ∃ s, download_youtube_video_select streams resolution = Except.ok s ∧
        s ∈ streams ∧ s.progressive = true ∧
        ∀ t ∈ streams, t.progressive = true → resKey t ≤ resKey s)
  ∧ ((∀ s ∈ streams, s.progressive = false) →
      download_youtube_video_select streams resolution =
        Except.error "No progressive streams found for this video at any resolution.") := by
  refine ⟨?_, ?_, ?_, ?_⟩
  · intro s hs
    unfold download_youtube_video_select at hs
    cases hfind : (progressivePool streams).find?
        (fun s => s.resolution == some resolution) with
    | some t =>
      simp only [hfind] at hs
      injection hs with heq
      rw [← heq]
      have := List.mem_of_find?_eq_some hfind
      rcases (mem_progressivePool t streams).mp this with ⟨h1, h2, _⟩
      exact ⟨h1, h2⟩
    | none =>
      simp only [hfind] at hs
      cases hpool : progressivePool streams with
      | nil => rw [hpool] at hs; simp at hs
      | cons x xs =>
        rw [hpool] at hs
        simp only [List.head?] at hs
        injection hs with heq
        rw [← heq]
        have : x ∈ progressivePool streams := by
          rw [hpool]; exact List.mem_cons_self x xs
        rcases (mem_progressivePool x streams).mp this with ⟨h1, h2, _⟩
        exact ⟨h1, h2⟩
  · rintro ⟨s0, hs0, hprog0, hres0⟩
    have hpool0 : s0 ∈ progressivePool streams :=
      (mem_progressivePool s0 streams).mpr ⟨hs0, hprog0, by simp [hres0]⟩
    have hfind : ((progressivePool streams).find?
        (fun s => s.resolution == some resolution)).isSome := by
      rw [List.find?_isSome]
      exact ⟨s0, hpool0, by simp [hres0]⟩
    rcases Option.isSome_iff_exists.mp hfind with ⟨t, hfind⟩
    have hpt := List.find?_some hfind
    have htres : t.resolution = some resolution := by
      simpa using hpt
    have htpool := List.mem_of_find?_eq_some hfind
    rcases (mem_progressivePool t streams).mp htpool with ⟨h1, h2, _⟩
    refine ⟨t, ?_, h1, h2, htres⟩
    unfold download_youtube_video_select
    simp only [hfind]
  · intro hnomatch ⟨s0, hs0, hprog0⟩
    have hfind : (progressivePool streams).find?
        (fun s => s.resolution == some resolution) = none := by
      rw [List.find?_eq_none]
      intro a ha
      rcases (mem_progressivePool a streams).mp ha with ⟨h1, h2, _⟩
      simpa using hnomatch a h1 h2
    have hpool0 : s0 ∈ progressivePool streams :=
      (mem_progressivePool s0 streams).mpr ⟨hs0, hprog0, hres s0 hs0 hprog0⟩
    cases hpool : progressivePool streams with
    | nil => rw [hpool] at hpool0; exact absurd hpool0 (List.not_mem_nil s0)
    | cons x xs =>
      have hx : x ∈ progressivePool streams := by
        rw [hpool]; exact List.mem_cons_self x xs
      rcases (mem_progressivePool x streams).mp hx with ⟨h1, h2, _⟩
      refine ⟨x, ?_, h1, h2, ?_⟩
      · have hfind' := hfind
        rw [hpool] at hfind'
        unfold download_youtube_video_select
        simp only [hpool, hfind', List.head?]
      · intro t ht hprogt
        exact progressivePool_head_max streams x xs hpool t ht hprogt
          (hres t ht hprogt)
  · intro hall
    have hfilter : streams.filter (fun s => s.progressive) = [] := by
      rw [List.filter_eq_nil]
      intro a ha
      simp [hall a ha]
    have hpool : progressivePool streams = [] := by
      unfold progressivePool orderByResolutionDesc
      rw [hfilter]
      rfl
    unfold download_youtube_video_select
    simp only [hpool, List.find?, List.head?]

/-- Catalog of three streams used to exercise C2. -/
def c2Streams : List RawStream :=
  [⟨true, "video", some "360p", some 500000, "u360"⟩,
   ⟨false, "video", some "1080p", some 2097152, "v1080"⟩,
   ⟨true, "video", some "720p", some 1048576, "u720"⟩]

/-- Witness for C2 at a concrete catalog with two combined entries and a
video-only entry, desired resolution 720p. -/
theorem selectStream_policy_w :
    (∀ s, download_youtube_video_select c2Streams "720p" = Except.ok s →
        s ∈ c2Streams ∧ s.progressive = true)
  ∧ ((∃ s ∈ c2Streams, s.progressive = true ∧ s.resolution = some "720p") →
      ∃ s, download_youtube_video_select c2Streams "720p" = Except.ok s ∧
        s ∈ c2Streams ∧ s.progressive = true ∧ s.resolution = some "720p")
  ∧ ((∀ s ∈ c2Streams, s.progressive = true → s.resolution ≠ some "720p") →
      (∃ s ∈ c2Streams, s.progressive = true) →
      ∃ s, download_youtube_video_select c2Streams "720p" = Except.ok s ∧
        s ∈ c2Streams ∧ s.progressive = true ∧
        ∀ t ∈ c2Streams, t.progressive = true → resKey t ≤ resKey s)
  ∧ ((∀ s ∈ c2Streams, s.progressive = false) →
      download_youtube_video_select c2Streams "720p" =
        Except.error "No progressive streams found for this video at any resolution.") :=
  selectStream_policy c2Streams "720p" (by decide)

/-! Helper lemmas about the two-entry catalog of app.py. -/

theorem head?_progressivePool (streams : List RawStream) (x : RawStream)
    (hx : (progressivePool streams).head? = some x) :
    x ∈ streams ∧ x.progressive = true ∧ x.resolution.isSome = true ∧
      ∀ t ∈ streams, t.progressive = true → t.resolution.isSome = true →
        resKey t ≤ resKey x := by
  cases hp : progressivePool streams with
  | nil => rw [hp] at hx; simp at hx
  | cons z zs =>
    rw [hp] at hx
    simp only [List.head?] at hx
    injection hx with heq
    rw [← heq]
    have hz : z ∈ progressivePool streams := by
      rw [hp]; exact List.mem_cons_self z zs
    rcases (mem_progressivePool z streams).mp hz with ⟨h1, h2, h3⟩
    exact ⟨h1, h2, h3, progressivePool_head_max streams z zs hp⟩

theorem head?_videoOnlyPool (streams : List RawStream) (x : RawStream)
    (hx : (videoOnlyPool streams).head? = some x) :
    x ∈ streams ∧ x.progressive = false ∧ x.streamType = "video" ∧
      x.resolution.isSome = true ∧
      ∀ t ∈ streams, t.progressive = false → t.streamType = "video" →
        t.resolution.isSome = true → resKey t ≤ resKey x := by
  cases hp : videoOnlyPool streams with
  | nil => rw [hp] at hx; simp at hx
  | cons z zs =>
    rw [hp] at hx
    simp only [List.head?] at hx
    injection hx with heq
    rw [← heq]
    have hz : z ∈ videoOnlyPool streams := by
      rw [hp]; exact List.mem_cons_self z zs
    rcases (mem_videoOnlyPool z streams).mp hz with ⟨h1, h2, h3, h4⟩
    exact ⟨h1, h2, h3, h4, videoOnlyPool_head_max streams z zs hp⟩

theorem progressivePool_head?_exists (streams : List RawStream) :
    (∃ x, (progressivePool streams).head? = some x) ↔
      ∃ s ∈ streams, s.progressive = true ∧ s.resolution.isSome = true := by
  constructor
  · rintro ⟨x, hx⟩
    rcases head?_progressivePool streams x hx with ⟨h1, h2, h3, _⟩
    exact ⟨x, h1, h2, h3⟩
  · rintro ⟨s, hs, h1, h2⟩
    have hmem : s ∈ progressivePool streams :=
      (mem_progressivePool s streams).mpr ⟨hs, h1, h2⟩
    cases hp : progressivePool streams with
    | nil => rw [hp] at hmem; exact absurd hmem (List.not_mem_nil s)
    | cons z zs => exact ⟨z, rfl⟩

theorem videoOnlyPool_head?_exists (streams : List RawStream) :
    (∃ x, (videoOnlyPool streams).head? = some x) ↔
      ∃ s ∈ streams, s.progressive = false ∧ s.streamType = "video" ∧
        s.resolution.isSome = true := by
  constructor
  · rintro ⟨x, hx⟩
    rcases head?_videoOnlyPool streams x hx with ⟨h1, h2, h3, h4, _⟩
    exact ⟨x, h1, h2, h3, h4⟩
  · rintro ⟨s, hs, h1, h2, h3⟩
    have hmem : s ∈ videoOnlyPool streams :=
      (mem_videoOnlyPool s streams).mpr ⟨hs, h1, h2, h3⟩
    cases hp : videoOnlyPool streams with
    | nil => rw [hp] at hmem; exact absurd hmem (List.not_mem_nil s)
    | cons z zs => exact ⟨z, rfl⟩

theorem mem_details (streams : List RawStream) (e : StreamDetail) :
    e ∈ process_youtube_streams_details streams ↔
      (∃ s, (progressivePool streams).head? = some s ∧ e = mkDetail progLabel s) ∨
      (∃ s, (videoOnlyPool streams).head? = some s ∧ e = mkDetail voLabel s) := by
  unfold process_youtube_streams_details streams_to_download_info
  cases hp : (progressivePool streams).head? <;>
    cases hv : (videoOnlyPool streams).head? <;> simp [hp, hv]

/-- Combined 720p stream of the C3 resolver scenario. -/
def c3Combined : RawStream :=
  ⟨true, "video", some "720p", some 1048576, "url-combined-720p"⟩

/-- Adaptive video-only 1080p stream of the C3 resolver scenario. -/
def c3VideoOnly : RawStream :=
  ⟨false, "video", some "1080p", some 2097152, "url-video-only-1080p"⟩

/-- Audio-only stream of the C3 resolver scenario. -/
def c3AudioOnly : RawStream :=
  ⟨false, "audio", none, some 100000, "url-audio-only"⟩

/-- Raw format list of the C3 scenario: one combined 720p, one video-only
1080p, one audio-only. -/
def c3Streams : List RawStream := [c3Combined, c3VideoOnly, c3AudioOnly]

/-- C3 counterexample: for the three-format resolver scenario the built
catalog holds exactly two entries — the combined and the video-only one —
and no entry carries the audio-only stream's URL, so the claimed
three-element listing [combined-720p, audio-only, video-only-1080p] is
false. -/
theorem catalog_drops_audio_cex :
    (process_youtube_streams_details c3Streams).length = 2
  ∧ (process_youtube_streams_details c3Streams).map (fun e => e.typeLabel)
      = [progLabel, voLabel]
  ∧ ((process_youtube_streams_details c3Streams).map (fun e => e.url)).contains
      "url-audio-only" = false := by
  refine ⟨rfl, rfl, rfl⟩

/-- C3 (amended): the built catalog contains at most two entries — the
highest-resolution combined stream, then the highest-resolution adaptive
video-only stream, each present exactly when such a stream (with a resolution
label) exists — and audio-only streams never appear. -/
theorem catalog_two_entry_shape (streams : List RawStream) :
    ((process_youtube_streams_details streams).map (fun e => e.typeLabel)).Sublist
        [progLabel, voLabel]
  ∧ (∀ e ∈ process_youtube_streams_details streams, e.typeLabel = progLabel →
      ∃ s ∈ streams, s.progressive = true ∧ e = mkDetail progLabel s ∧
        ∀ t ∈ streams, t.progressive = true → t.resolution.isSome = true →
          resKey t ≤ resKey s)
  ∧ (∀ e ∈ process_youtube_streams_details streams, e.typeLabel = voLabel →
      ∃ s ∈ streams, s.progressive = false ∧ s.streamType = "video" ∧
        e = mkDetail voLabel s ∧
        ∀ t ∈ streams, t.progressive = false → t.streamType = "video" →
          t.resolution.isSome = true → resKey t ≤ resKey s)
  ∧ ((∃ s ∈ streams, s.progressive = true ∧ s.resolution.isSome = true) ↔
      ∃ e ∈ process_youtube_streams_details streams, e.typeLabel = progLabel)
  ∧ ((∃ s ∈ streams, s.progressive = false ∧ s.streamType = "video" ∧
        s.resolution.isSome = true) ↔
      ∃ e ∈ process_youtube_streams_details streams, e.typeLabel = voLabel) := by
  have hvne : ∀ s : RawStream, (mkDetail voLabel s).typeLabel ≠ progLabel := by
    intro s h
    rw [show (mkDetail voLabel s).typeLabel = voLabel from rfl] at h
    exact absurd h (by decide)
  have hpne : ∀ s : RawStream, (mkDetail progLabel s).typeLabel ≠ voLabel := by
    intro s h
    rw [show (mkDetail progLabel s).typeLabel = progLabel from rfl] at h
    exact absurd h (by decide)
  refine ⟨?_, ?_, ?_, ?_, ?_⟩
  · unfold process_youtube_streams_details streams_to_download_info
    cases hp : (progressivePool streams).head? with
    | none =>
      cases hv : (videoOnlyPool streams).head? with
      | none => exact List.nil_sublist _
      | some y => exact (List.Sublist.refl [voLabel]).cons progLabel
    | some x =>
      cases hv : (videoOnlyPool streams).head? with
      | none => exact (List.nil_sublist [voLabel]).cons₂ progLabel
      | some y => exact List.Sublist.refl _
  · intro e he hlabel
    rcases (mem_details streams e).mp he with ⟨s, hh, rfl⟩ | ⟨s, hh, rfl⟩
    · rcases head?_progressivePool streams s hh with ⟨h1, h2, _, h4⟩
      exact ⟨s, h1, h2, rfl, h4⟩
    · exact absurd hlabel (hvne s)
  · intro e he hlabel
    rcases (mem_details streams e).mp he with ⟨s, hh, rfl⟩ | ⟨s, hh, rfl⟩
    · exact absurd hlabel (hpne s)
    · rcases head?_videoOnlyPool streams s hh with ⟨h1, h2, h3, _, h5⟩
      exact ⟨s, h1, h2, h3, rfl, h5⟩
  · constructor
    · intro h
      rcases (progressivePool_head?_exists streams).mpr h with ⟨x, hx⟩
      refine ⟨mkDetail progLabel x, ?_, rfl⟩
      exact (mem_details streams _).mpr (Or.inl ⟨x, hx, rfl⟩)
    · rintro ⟨e, he, hlabel⟩
      rcases (mem_details streams e).mp he with ⟨s, hh, rfl⟩ | ⟨s, hh, rfl⟩
      · exact (progressivePool_head?_exists streams).mp ⟨s, hh⟩
      · exact absurd hlabel (hvne s)
  · constructor
    · intro h
      rcases (videoOnlyPool_head?_exists streams).mpr h with ⟨x, hx⟩
      refine ⟨mkDetail voLabel x, ?_, rfl⟩
      exact (mem_details streams _).mpr (Or.inr ⟨x, hx, rfl⟩)
    · rintro ⟨e, he, hlabel⟩
      rcases (mem_details streams e).mp he with ⟨s, hh, rfl⟩ | ⟨s, hh, rfl⟩
      · exact absurd hlabel (hpne s)
      · exact (videoOnlyPool_head?_exists streams).mp ⟨s, hh⟩

/-- Progressive stream with an empty source URL, the C8 counterexample input. -/
def emptyUrlStream : RawStream := ⟨true, "video", some "720p", some 1048576, ""⟩

/-- C8 counterexample: a raw record with an empty source URL is not
discarded — the catalog built from a single progressive stream with an empty
url has exactly one entry and that entry's url is empty. -/
theorem catalog_keeps_empty_url_cex :
    (process_youtube_streams_details [emptyUrlStream]).map (fun e => e.url)
      = [""] := by
  refine rfl

/-- C8 (amended): the built catalog copies each selected stream's source URL
verbatim from the raw record; no filtering on empty source URLs is
performed. -/
theorem catalog_urls_verbatim (streams : List RawStream) :
    ∀ e ∈ process_youtube_streams_details streams,
      ∃ s ∈ streams, e.url = s.url := by
  intro e he
  rcases (mem_details streams e).mp he with ⟨s, hh, rfl⟩ | ⟨s, hh, rfl⟩
  · rcases head?_progressivePool streams s hh with ⟨h1, _, _, _⟩
    exact ⟨s, h1, rfl⟩
  · rcases head?_videoOnlyPool streams s hh with ⟨h1, _, _, _, _⟩
    exact ⟨s, h1, rfl⟩

/-- Witness for the amended C8 at the empty-url catalog entry. -/
theorem catalog_urls_verbatim_w :
    ∃ s ∈ [emptyUrlStream], (mkDetail progLabel emptyUrlStream).url = s.url :=
  catalog_urls_verbatim [emptyUrlStream] (mkDetail progLabel emptyUrlStream)
    ((mem_details [emptyUrlStream] _).mpr (Or.inl ⟨emptyUrlStream, rfl, rfl⟩))

/-- C9 counterexample: for a stream whose byte size is known and equal to
zero, the code's `filesize_mb` is `None` (Python truthiness treats 0 as
falsy) while the spec's formula gives 0.00. -/
theorem filesize_mb_zero_cex :
    filesize_mb (some 0) = none ∧ spec_approxSizeMB (some 0) = some 0 := by
  refine ⟨rfl, ?_⟩
  simp [spec_approxSizeMB, round2]

/-- C9 (amended): for every known nonzero byte size, `filesize_mb` equals the
spec's `approxSizeMB` formula — the size divided by 1,048,576 and rounded to
two decimal places (modelled over exact rationals) — and it is `None` when
the byte size is unknown or zero. -/
theorem filesize_mb_formula (b : Nat) :
    filesize_mb (some (b + 1)) = spec_approxSizeMB (some (b + 1))
  ∧ filesize_mb none = none
  ∧ filesize_mb (some 0) = none := by
  refine ⟨?_, rfl, rfl⟩
  simp only [filesize_mb, spec_approxSizeMB, Option.map_some']
  norm_num

/-! Helper lemmas for the filename round trip. -/

theorem digitVal_digChar : ∀ m : Nat, m < 10 → digitVal (digChar m) = m := by decide

theorem isDigit_digChar : ∀ m : Nat, m < 10 → (digChar m).isDigit = true := by decide

theorem length_padNat (w : Nat) : ∀ n, (padNat w n).length = w := by
  induction w with
  | zero => intro n; rfl
  | succ w ih => intro n; simp [padNat, ih]

theorem isDigit_of_mem_padNat (w : Nat) :
    ∀ n c, c ∈ padNat w n → c.isDigit = true := by
  induction w with
  | zero => intro n c h; simp [padNat] at h
  | succ w ih =>
    intro n c h
    simp only [padNat, List.mem_append, List.mem_singleton] at h
    rcases h with h | rfl
    · exact ih _ c h
    · exact isDigit_digChar _ (Nat.mod_lt n (by omega))

theorem digitsVal_padNat (w : Nat) : ∀ n, n < 10 ^ w →
    digitsVal (padNat w n) = n := by
  induction w with
  | zero =>
    intro n h
    rw [pow_zero] at h
    have hn : n = 0 := by omega
    subst hn
    rfl
  | succ w ih =>
    intro n h
    have h1 : n / 10 < 10 ^ w := by
      rw [Nat.div_lt_iff_lt_mul (by norm_num)]
      calc n < 10 ^ (w + 1) := h
        _ = 10 ^ w * 10 := by rw [pow_succ]
    have h2 := ih (n / 10) h1
    have h3 := digitVal_digChar (n % 10) (Nat.mod_lt n (by norm_num))
    show digitsVal (padNat w (n / 10) ++ [digChar (n % 10)]) = n
    rw [digitsVal, List.foldl_append]
    simp only [List.foldl_cons, List.foldl_nil]
    rw [show (padNat w (n / 10)).foldl (fun a c => 10 * a + digitVal c) 0
        = digitsVal (padNat w (n / 10)) from rfl, h2, h3]
    omega

theorem formatTSList_all_digits (d : DateTime) :
    ∀ c ∈ formatTSList d, c.isDigit = true := by
  intro c hc
  simp only [formatTSList, List.mem_append] at hc
  rcases hc with h | h | h | h | h | h <;> exact isDigit_of_mem_padNat _ _ _ h

theorem daysInMonth_le_31 (y m : Nat) : daysInMonth y m ≤ 31 := by
  unfold daysInMonth
  split
  · split <;> omega
  · split <;> omega

theorem parse_formatTS (d : DateTime) (hv : d.validTS = true) :
    parseTSList (formatTSList d) = some d := by
  have h := hv
  simp only [DateTime.validTS, Bool.and_eq_true, decide_eq_true_eq] at h
  obtain ⟨⟨⟨⟨⟨⟨⟨⟨hy1, hy2⟩, hm1⟩, hm2⟩, hd1⟩, hd2⟩, hhr⟩, hmin⟩, hsec⟩ := h
  have hdm := daysInMonth_le_31 d.year d.month
  have hylt : d.year < 10 ^ 4 := by norm_num; omega
  have hmlt : d.month < 10 ^ 2 := by norm_num; omega
  have hdlt : d.day < 10 ^ 2 := by norm_num; omega
  have hhlt : d.hour < 10 ^ 2 := by norm_num; omega
  have hminlt : d.minute < 10 ^ 2 := by norm_num; omega
  have hslt : d.second < 10 ^ 2 := by norm_num; omega
  have hlen : (formatTSList d).length = 14 := by
    simp [formatTSList, length_padNat]
  have hdig : (formatTSList d).all Char.isDigit = true := by
    rw [List.all_eq_true]
    intro c hc
    exact formatTSList_all_digits d c hc
  have e4 : (formatTSList d).take 4 = padNat 4 d.year := by
    rw [formatTSList]
    exact List.take_left' (length_padNat 4 d.year)
  have r4 : (formatTSList d).drop 4
      = padNat 2 d.month ++ (padNat 2 d.day ++ (padNat 2 d.hour ++
        (padNat 2 d.minute ++ padNat 2 d.second))) := by
    rw [formatTSList]
    exact List.drop_left' (length_padNat 4 d.year)
  have e6 : ((formatTSList d).drop 4).take 2 = padNat 2 d.month := by
    rw [r4]
    exact List.take_left' (length_padNat 2 d.month)
  have r6 : (formatTSList d).drop 6
      = padNat 2 d.day ++ (padNat 2 d.hour ++
        (padNat 2 d.minute ++ padNat 2 d.second)) := by
    have hh : (formatTSList d).drop 6 = ((formatTSList d).drop 4).drop 2 := by
      rw [List.drop_drop]
    rw [hh, r4]
    exact List.drop_left' (length_padNat 2 d.month)
  have e8 : ((formatTSList d).drop 6).take 2 = padNat 2 d.day := by
    rw [r6]
    exact List.take_left' (length_padNat 2 d.day)
  have r8 : (formatTSList d).drop 8
      = padNat 2 d.hour ++ (padNat 2 d.minute ++ padNat 2 d.second) := by
    have hh : (formatTSList d).drop 8 = ((formatTSList d).drop 6).drop 2 := by
      rw [List.drop_drop]
    rw [hh, r6]
    exact List.drop_left' (length_padNat 2 d.day)
  have e10 : ((formatTSList d).drop 8).take 2 = padNat 2 d.hour := by
    rw [r8]
    exact List.take_left' (length_padNat 2 d.hour)
  have r10 : (formatTSList d).drop 10
      = padNat 2 d.minute ++ padNat 2 d.second := by
    have hh : (formatTSList d).drop 10 = ((formatTSList d).drop 8).drop 2 := by
      rw [List.drop_drop]
    rw [hh, r8]
    exact List.drop_left' (length_padNat 2 d.hour)
  have e12 : ((formatTSList d).drop 10).take 2 = padNat 2 d.minute := by
    rw [r10]
    exact List.take_left' (length_padNat 2 d.minute)
  have r12 : (formatTSList d).drop 12 = padNat 2 d.second := by
    have hh : (formatTSList d).drop 12 = ((formatTSList d).drop 10).drop 2 := by
      rw [List.drop_drop]
    rw [hh, r10]
    exact List.drop_left' (length_padNat 2 d.minute)
  rw [parseTSList]
  rw [hlen, hdig]
  simp only [decide_True, Bool.and_self, if_true]
  rw [e4, e6, e8, e10, e12, r12]
  rw [digitsVal_padNat 4 d.year hylt, digitsVal_padNat 2 d.month hmlt,
    digitsVal_padNat 2 d.day hdlt, digitsVal_padNat 2 d.hour hhlt,
    digitsVal_padNat 2 d.minute hminlt, digitsVal_padNat 2 d.second hslt]
  have heta : (⟨d.year, d.month, d.day, d.hour, d.minute, d.second⟩ : DateTime)
      = d := rfl
  rw [heta, hv]
  rfl

theorem splitU_ne_nil (cs : List Char) : splitU cs ≠ [] := by
  induction cs with
  | nil => simp [splitU]
  | cons c cs ih =>
    by_cases h : c = '_'
    · simp [splitU, h]
    · simp only [splitU, if_neg h]
      cases hs : splitU cs with
      | nil => exact absurd hs ih
      | cons p ps => simp

theorem splitU_sep (xs ys : List Char) :
    splitU (xs ++ '_' :: ys) = splitU xs ++ splitU ys := by
  induction xs with
  | nil => simp [splitU]
  | cons c cs ih =>
    by_cases h : c = '_'
    · simp [splitU, h, ih]
    · cases hs : splitU cs with
      | nil => exact absurd hs (splitU_ne_nil cs)
      | cons p ps =>
        simp only [List.cons_append, splitU, if_neg h, List.append_eq, ih, hs]

theorem splitU_no_sep (xs : List Char) (h : '_' ∉ xs) : splitU xs = [xs] := by
  induction xs with
  | nil => rfl
  | cons c cs ih =>
    simp only [List.mem_cons, not_or] at h
    obtain ⟨h1, h2⟩ := h
    have hc : ¬ c = '_' := fun hce => h1 hce.symm
    simp [splitU, hc, ih h2]

theorem fileTimestampSecs_of_parse (f : FileEntry) (dt : DateTime)
    (h4 : 4 ≤ (splitU f.name.data).length)
    (hp : parseTSList ((splitU f.name.data).getD
      ((splitU f.name.data).length - 2) []) = some dt) :
    fileTimestampSecs f = some dt.toSecs := by
  simp only [fileTimestampSecs]
  rw [if_pos h4, hp]

theorem getD_append_triple (l : List (List Char)) (a b c : List Char) :
    (l ++ [a, b, c]).getD (l.length + 1) [] = b := by
  induction l with
  | nil => rfl
  | cons x xs ih =>
    simp only [List.cons_append, List.length_cons, List.getD_cons_succ]
    exact ih

/-- C10: every output filename synthesized at download time — sanitized
title, resolution, strftime timestamp and hex id joined by underscores with
extension .mp4 — splits on underscores into at least four segments; the
second-to-last segment is exactly the embedded timestamp string; that string
parses back to the embedded creation time; and the sweep therefore derives
the file's timestamp from the name (never the modification time), whatever
the raw title.  Hypotheses: the resolution label and the unique id contain no
underscore (true of pytubefix labels like 720p and of 8-character hex ids),
and the creation time is a valid `datetime.now()` value of a four-digit
year. -/
theorem filename_roundtrip (title resolution unique_id : String)
    (now : DateTime) (hres : '_' ∉ resolution.data)
    (huid : '_' ∉ unique_id.data) (hvalid : now.validTS = true)
    (hyear : 1000 ≤ now.year) :
    4 ≤ (splitU (file_name title resolution now unique_id).data).length
  ∧ (splitU (file_name title resolution now unique_id).data).getD
      ((splitU (file_name title resolution now unique_id).data).length - 2) []
      = formatTSList now
  ∧ parseTSList (formatTSList now) = some now
  ∧ ∀ mtime : Int, ∀ del : Bool,
      fileTimestampSecs ⟨file_name title resolution now unique_id, mtime, del⟩
        = some now.toSecs := by
  have hfmt : '_' ∉ formatTSList now := by
    intro hmem
    have := formatTSList_all_digits now '_' hmem
    exact absurd this (by decide)
  have hlast : '_' ∉ unique_id.data ++ ".mp4".data := by
    intro hmem
    rcases List.mem_append.mp hmem with hmem | hmem
    · exact huid hmem
    · exact absurd hmem (by decide)
  have hu : ("_" : String).data = ['_'] := rfl
  have hdata : (file_name title resolution now unique_id).data
      = (safe_title title).data ++ '_' :: (resolution.data ++ '_' ::
        (formatTSList now ++ '_' :: (unique_id.data ++ ".mp4".data))) := by
    simp only [file_name, formatTS, String.data_append, hu, List.append_assoc,
      List.cons_append, List.singleton_append, List.nil_append]
  have hsplit : splitU (file_name title resolution now unique_id).data
      = splitU (safe_title title).data ++
        [resolution.data, formatTSList now, unique_id.data ++ ".mp4".data] := by
    rw [hdata, splitU_sep, splitU_sep, splitU_sep, splitU_no_sep resolution.data hres,
      splitU_no_sep (formatTSList now) hfmt, splitU_no_sep _ hlast]
    simp
  have hS : 0 < (splitU (safe_title title).data).length :=
    List.length_pos.mpr (splitU_ne_nil (safe_title title).data)
  have hlen : (splitU (file_name title resolution now unique_id).data).length
      = (splitU (safe_title title).data).length + 3 := by
    rw [hsplit]
    simp
  have hgoal1 : 4 ≤ (splitU (file_name title resolution now unique_id).data).length := by
    omega
  have hidx : (splitU (file_name title resolution now unique_id).data).length - 2
      = (splitU (safe_title title).data).length + 1 := by
    omega
  have hgoal2 : (splitU (file_name title resolution now unique_id).data).getD
      ((splitU (file_name title resolution now unique_id).data).length - 2) []
      = formatTSList now := by
    rw [hidx, hsplit]
    exact getD_append_triple _ _ _ _
  refine ⟨hgoal1, hgoal2, parse_formatTS now hvalid, ?_⟩
  intro mtime del
  refine fileTimestampSecs_of_parse _ now hgoal1 ?_
  show parseTSList ((splitU (file_name title resolution now unique_id).data).getD
    ((splitU (file_name title resolution now unique_id).data).length - 2) [])
    = some now
  rw [hgoal2]
  exact parse_formatTS now hvalid

/-- Creation time used by the C10 witness. -/
def c10Now : DateTime := ⟨2024, 1, 1, 12, 0, 0⟩

/-- Witness for C10 at a concrete underscore-bearing title, resolution 720p,
hex id ab12cd34 and creation time 2024-01-01T12:00:00. -/
theorem filename_roundtrip_w :
    4 ≤ (splitU (file_name "My_Video" "720p" c10Now "ab12cd34").data).length
  ∧ (splitU (file_name "My_Video" "720p" c10Now "ab12cd34").data).getD
      ((splitU (file_name "My_Video" "720p" c10Now "ab12cd34").data).length - 2) []
      = formatTSList c10Now
  ∧ parseTSList (formatTSList c10Now) = some c10Now
  ∧ ∀ mtime : Int, ∀ del : Bool,
      fileTimestampSecs ⟨file_name "My_Video" "720p" c10Now "ab12cd34", mtime, del⟩
        = some c10Now.toSecs :=
  filename_roundtrip "My_Video" "720p" "ab12cd34" c10Now (by decide) (by decide)
    (by decide) (by decide)
